import Mathlib

/-!
Verification of the TDS radial menu (Maya) against its specification.

The development shallowly embeds the relevant parts of
`TDS_radialMenu/radialWidget.py`:

* the Geometry Engine (`calculate_angles`, `get_sector_from_angle`,
  `get_child_angles`, `get_outer_sector_from_angle`),
* the mouse-move interaction logic of the editor widget
  (`RadialMenuWidget.mouseMoveEvent`) and of the popup
  (`RadialMenu.mouseMoveEvent`),
* the preset store (`_load_data`, `_save_data`, `set_active_preset`,
  `create_preset`, `delete_preset`) together with the wheel-driven
  preset preview (`RadialMenuWidget.wheelEvent`),
* a small explicit-heap model of Python object identity, used to settle
  the copy-depth of `create_preset`'s clone path.

Angle and distance arithmetic is modelled over `ℚ` (exact arithmetic in
place of Python floats); Python's `%` on nonnegative-modulus floats is
modelled by `qmod360`.  Python `OrderedDict`s are modelled as association
lists that preserve insertion order.
-/

namespace RadialMenu

/-- Python's `x % 360` for a rational `x` (result always in `[0, 360)`). -/
def qmod360 (x : ℚ) : ℚ := x - 360 * ⌊x / 360⌋

theorem qmod360_nonneg (x : ℚ) : 0 ≤ qmod360 x := by
  unfold qmod360
  have h := Int.floor_le (x / 360)
  nlinarith [h]

theorem qmod360_lt (x : ℚ) : qmod360 x < 360 := by
  unfold qmod360
  have h := Int.lt_floor_add_one (x / 360)
  nlinarith [h]

theorem qmod360_eq_of_bounds (x : ℚ) (h0 : 0 ≤ x) (h1 : x < 360) :
    qmod360 x = x := by
  unfold qmod360
  have : ⌊x / 360⌋ = 0 := by
    rw [Int.floor_eq_zero_iff]
    constructor
    · positivity
    · rw [div_lt_one (by norm_num)]; simpa using h1
  simp [this]

theorem qmod360_eq_of_neg_bounds (x : ℚ) (h0 : -360 ≤ x) (h1 : x < 0) :
    qmod360 x = x + 360 := by
  unfold qmod360
  have : ⌊x / 360⌋ = -1 := by
    rw [Int.floor_eq_iff]
    constructor
    · rw [le_div_iff₀ (by norm_num : (0:ℚ) < 360)]; push_cast; linarith
    · push_cast
      have : x / 360 < 0 := div_neg_of_neg_of_pos h1 (by norm_num)
      linarith
  rw [this]; push_cast; ring

theorem qmod360_add_int_mul (x : ℚ) (k : ℤ) :
    qmod360 (x + 360 * k) = qmod360 x := by
  unfold qmod360
  have : (x + 360 * k) / 360 = x / 360 + k := by
    field_simp
    ring
  rw [this, Int.floor_add_int]
  push_cast
  ring

/-- `RadialMenuWidget.calculate_angles`: evenly distribute `360/n` degrees
per label starting at 270, values taken `% 360`.  Labels keep their list
(= `OrderedDict` insertion) order. -/
def calculate_angles (order : List String) : List (String × ℚ) :=
  if order = [] then []
  else
    order.enum.map fun p =>
      (p.2, qmod360 (270 + (p.1 : ℚ) * (360 / (order.length : ℚ))))

/-- The half-open band test of `get_sector_from_angle` and
`get_outer_sector_from_angle`: given the already-wrapped band edges
`min_a = lo % 360` and `max_a = hi % 360`, an angle is inside iff
`min_a <= angle < max_a` when `min_a < max_a`, and
`angle >= min_a or angle < max_a` otherwise (band wraps through 0). -/
def bandContains (min_a max_a angle : ℚ) : Bool :=
  if min_a < max_a then decide (min_a ≤ angle ∧ angle < max_a)
  else decide (angle ≥ min_a ∨ angle < max_a)

/-- `RadialMenuWidget.get_sector_from_angle`: scan the (label, centre-angle)
map in order; a label owns the band `[centre - step/2, centre + step/2)`
with wraparound, `step = 360 / n`; first hit wins, `none` if the map is
empty. -/
def get_sector_from_angle (inner_angles : List (String × ℚ)) (angle : ℚ) :
    Option String :=
  if inner_angles = [] then none
  else
    let step : ℚ := 360 / (inner_angles.length : ℚ)
    (inner_angles.find? fun p =>
      bandContains (qmod360 (p.2 - step / 2)) (qmod360 (p.2 + step / 2))
        angle).map Prod.fst

/-- `RadialMenuWidget.get_child_angles` (pure core): children occupy a
contiguous arc of `step * count` centred on the parent's angle, starting at
`centre - total/2`, `step = 25 * child_angle_multiplier`; each child's
start angle is taken `% 360`. -/
def get_child_angles (labels : List String) (mult centre : ℚ) :
    List (String × ℚ) :=
  let step : ℚ := 25 * mult
  let total_arc : ℚ := step * (labels.length : ℚ)
  let start_angle : ℚ := qmod360 (centre - total_arc / 2)
  labels.enum.map fun p => (p.2, qmod360 (start_angle + (p.1 : ℚ) * step))

/-- `RadialMenuWidget.get_outer_sector_from_angle` (pure core): each child
owns `[start, start + step) % 360`; first match in insertion order wins. -/
def get_outer_sector_from_angle (child_angles : List (String × ℚ))
    (mult angle : ℚ) : Option String :=
  let step : ℚ := 25 * mult
  (child_angles.find? fun p =>
    bandContains p.2 (qmod360 (p.2 + step)) angle).map Prod.fst

theorem qmod360_qmod360_add (y z : ℚ) :
    qmod360 (qmod360 y + z) = qmod360 (y + z) := by
  have h : qmod360 y + z = (y + z) + 360 * ((-⌊y / 360⌋ : ℤ) : ℚ) := by
    unfold qmod360; push_cast; ring
  rw [h, qmod360_add_int_mul]

/-- The band test, rephrased: an already-wrapped band of width `step`
starting (before wrapping) at `u` contains `x ∈ [0, 360)` iff the wrapped
distance from `u` to `x` is below `step`. -/
theorem bandContains_iff (u step x : ℚ) (hstep : 0 < step)
    (hstep' : step ≤ 360) (hx0 : 0 ≤ x) (hx1 : x < 360) :
    bandContains (qmod360 u) (qmod360 (u + step)) x = true ↔
      qmod360 (x - u) < step := by
  have hm0 : 0 ≤ qmod360 u := qmod360_nonneg u
  have hm1 : qmod360 u < 360 := qmod360_lt u
  set m : ℚ := qmod360 u with hm
  have hq1 : qmod360 (u + step) = qmod360 (m + step) := by
    rw [hm, qmod360_qmod360_add]
  have hq2 : qmod360 (x - u) = qmod360 (x - m) := by
    have h : x - u = (x - m) + 360 * ((-⌊u / 360⌋ : ℤ) : ℚ) := by
      rw [hm]; unfold qmod360; push_cast; ring
    rw [h, qmod360_add_int_mul]
  rw [hq1, hq2]
  rcases le_or_lt 360 (m + step) with hB | hA
  · -- wrapped band: `m + step` spills past 360
    have hM : qmod360 (m + step) = m + step - 360 := by
      have h2 := qmod360_add_int_mul (m + step - 360) 1
      have h3 : m + step - 360 + 360 * ((1 : ℤ) : ℚ) = m + step := by
        push_cast; ring
      rw [h3] at h2
      rw [h2, qmod360_eq_of_bounds _ (by linarith) (by linarith)]
    rw [hM]
    rcases le_or_lt m x with hxm | hxm
    · have hxm' : qmod360 (x - m) = x - m :=
        qmod360_eq_of_bounds _ (by linarith) (by linarith)
      rw [hxm']
      unfold bandContains
      split_ifs with hlt
      · simp only [decide_eq_true_eq]
        constructor
        · rintro ⟨-, h2⟩; linarith
        · intro h; exact absurd hlt (by linarith)
      · simp only [decide_eq_true_eq]
        constructor
        · intro _; linarith
        · intro _; left; exact hxm
    · have hxm' : qmod360 (x - m) = x - m + 360 :=
        qmod360_eq_of_neg_bounds _ (by linarith) (by linarith)
      rw [hxm']
      unfold bandContains
      split_ifs with hlt
      · simp only [decide_eq_true_eq]
        constructor
        · rintro ⟨h1, -⟩; linarith
        · intro h; exact absurd hlt (by linarith)
      · simp only [decide_eq_true_eq]
        constructor
        · rintro (h | h) <;> linarith
        · intro h; right; linarith
  · -- unwrapped band: `[m, m + step)` stays inside `[0, 360)`
    have hM : qmod360 (m + step) = m + step :=
      qmod360_eq_of_bounds _ (by linarith) hA
    rw [hM]
    unfold bandContains
    rw [if_pos (by linarith)]
    simp only [decide_eq_true_eq]
    rcases le_or_lt m x with hxm | hxm
    · have hxm' : qmod360 (x - m) = x - m :=
        qmod360_eq_of_bounds _ (by linarith) (by linarith)
      rw [hxm']
      constructor
      · rintro ⟨-, h2⟩; linarith
      · intro h; exact ⟨hxm, by linarith⟩
    · have hxm' : qmod360 (x - m) = x - m + 360 :=
        qmod360_eq_of_neg_bounds _ (by linarith) (by linarith)
      rw [hxm']
      constructor
      · rintro ⟨h1, -⟩; linarith
      · intro h; linarith

/-- `List.find?` returns the entry at position `i` when that entry tests
true and all earlier entries test false. -/
theorem find?_eq_get_of_first {α : Type} (l : List α) (p : α → Bool)
    (i : Fin l.length) (hp : p (l.get i) = true)
    (hprev : ∀ j : Fin l.length, (j : ℕ) < (i : ℕ) → p (l.get j) = false) :
    l.find? p = some (l.get i) := by
  induction l with
  | nil => exact absurd i.isLt (by simp)
  | cons a t ih =>
    rcases i with ⟨iv, hi⟩
    cases iv with
    | zero =>
      simp only [List.get] at hp
      simp [List.find?, hp]
    | succ k =>
      have ha : p a = false := by
        have := hprev ⟨0, by simp⟩ (by simp)
        simp at this
        exact this
      have hk : k < t.length := by simpa using hi
      have hp' : p (t.get ⟨k, hk⟩) = true := by simpa using hp
      have hprev' : ∀ j : Fin t.length, (j : ℕ) < k →
          p (t.get j) = false := by
        intro j hj
        have := hprev ⟨j + 1, Nat.succ_lt_succ j.isLt⟩
          (by simp only [Nat.add_eq]; omega)
        simpa using this
      simp only [List.find?, ha]
      simpa using ih ⟨k, hk⟩ hp' hprev'

/-- The Boolean ownership test that `get_sector_from_angle` applies to the
`i`-th entry produced by `calculate_angles` for `n` labels. -/
def sectorOwns (n i : ℕ) (x : ℚ) : Bool :=
  bandContains
    (qmod360 (qmod360 (270 + (i : ℚ) * (360 / (n : ℚ))) - 360 / (n : ℚ) / 2))
    (qmod360 (qmod360 (270 + (i : ℚ) * (360 / (n : ℚ))) + 360 / (n : ℚ) / 2))
    x

/-- `sectorOwns` holds exactly when the wrapped offset of `x` from the
band's start edge `270 - step/2 + i*step` is below `step`. -/
theorem sectorOwns_iff (n i : ℕ) (x : ℚ) (hn : 0 < n) (hx0 : 0 ≤ x)
    (hx1 : x < 360) :
    sectorOwns n i x = true ↔
      qmod360 (x - (270 - 360 / (n : ℚ) / 2 + (i : ℚ) * (360 / (n : ℚ))))
        < 360 / (n : ℚ) := by
  have hnq : (0 : ℚ) < (n : ℚ) := by exact_mod_cast hn
  have hstep : (0 : ℚ) < 360 / (n : ℚ) := by positivity
  have hstep' : 360 / (n : ℚ) ≤ 360 := by
    rw [div_le_iff₀ hnq]
    have : (1 : ℚ) ≤ (n : ℚ) := by exact_mod_cast hn
    nlinarith
  unfold sectorOwns
  have h1 : qmod360 (qmod360 (270 + (i : ℚ) * (360 / (n : ℚ))) -
      360 / (n : ℚ) / 2) =
      qmod360 (270 - 360 / (n : ℚ) / 2 + (i : ℚ) * (360 / (n : ℚ))) := by
    rw [show qmod360 (270 + (i : ℚ) * (360 / (n : ℚ))) - 360 / (n : ℚ) / 2 =
        qmod360 (270 + (i : ℚ) * (360 / (n : ℚ))) +
          (-(360 / (n : ℚ) / 2)) by ring,
      qmod360_qmod360_add]
    congr 1
    ring
  have h2 : qmod360 (qmod360 (270 + (i : ℚ) * (360 / (n : ℚ))) +
      360 / (n : ℚ) / 2) =
      qmod360 ((270 - 360 / (n : ℚ) / 2 + (i : ℚ) * (360 / (n : ℚ))) +
        360 / (n : ℚ)) := by
    rw [qmod360_qmod360_add]
    congr 1
    ring
  rw [h1, h2]
  exact bandContains_iff _ _ x hstep hstep' hx0 hx1

/-- For `i < n` the ownership test picks out exactly the band
`[i*step, (i+1)*step)` in the shifted coordinate
`y = (x - (270 - step/2)) % 360`. -/
theorem sectorOwns_iff_interval (n i : ℕ) (x : ℚ) (hn : 0 < n)
    (hi : i < n) (hx0 : 0 ≤ x) (hx1 : x < 360) :
    sectorOwns n i x = true ↔
      ((i : ℚ) * (360 / (n : ℚ)) ≤ qmod360 (x - (270 - 360 / (n : ℚ) / 2)) ∧
       qmod360 (x - (270 - 360 / (n : ℚ) / 2)) <
         ((i : ℚ) + 1) * (360 / (n : ℚ))) := by
  have hnq : (0 : ℚ) < (n : ℚ) := by exact_mod_cast hn
  set step : ℚ := 360 / (n : ℚ) with hstepdef
  have hstep : (0 : ℚ) < step := by positivity
  have hnstep : (n : ℚ) * step = 360 := by
    rw [hstepdef]; field_simp
  set y : ℚ := qmod360 (x - (270 - step / 2)) with hy
  have hy0 : 0 ≤ y := qmod360_nonneg _
  have hy1 : y < 360 := qmod360_lt _
  have hshift : qmod360 (x - (270 - step / 2 + (i : ℚ) * step)) =
      qmod360 (y - (i : ℚ) * step) := by
    have h : x - (270 - step / 2 + (i : ℚ) * step) =
        (y - (i : ℚ) * step) + 360 * ((⌊(x - (270 - step / 2)) / 360⌋ : ℤ) : ℚ) := by
      rw [hy]; unfold qmod360; ring
    rw [h, qmod360_add_int_mul]
  rw [sectorOwns_iff n i x hn hx0 hx1, hshift]
  have histep : (i : ℚ) * step ≤ 360 - step := by
    have : ((i : ℚ) + 1) ≤ (n : ℚ) := by exact_mod_cast hi
    nlinarith
  rcases le_or_lt ((i : ℚ) * step) y with hle | hlt
  · have hq : qmod360 (y - (i : ℚ) * step) = y - (i : ℚ) * step := by
      apply qmod360_eq_of_bounds
      · linarith
      · have : 0 ≤ (i : ℚ) * step := by positivity
        linarith
    rw [hq]
    constructor
    · intro h; exact ⟨hle, by linarith⟩
    · rintro ⟨-, h2⟩; linarith
  · have hq : qmod360 (y - (i : ℚ) * step) = y - (i : ℚ) * step + 360 := by
      apply qmod360_eq_of_neg_bounds
      · linarith
      · linarith
    rw [hq]
    constructor
    · intro h
      exfalso
      have hnn : ((i : ℚ) + 1) * step ≤ 360 := by
        have : ((i : ℚ) + 1) ≤ (n : ℚ) := by exact_mod_cast hi
        nlinarith
      nlinarith
    · rintro ⟨h1, -⟩; linarith

/-- C1 existence/uniqueness core: for `n ≥ 1` and `x ∈ [0, 360)` exactly one
index `i < n` owns `x`. -/
theorem sectorOwns_existsUnique (n : ℕ) (x : ℚ) (hn : 0 < n) (hx0 : 0 ≤ x)
    (hx1 : x < 360) :
    ∃ i : ℕ, i < n ∧ sectorOwns n i x = true ∧
      ∀ j : ℕ, j < n → sectorOwns n j x = true → j = i := by
  have hnq : (0 : ℚ) < (n : ℚ) := by exact_mod_cast hn
  set step : ℚ := 360 / (n : ℚ) with hstepdef
  have hstep : (0 : ℚ) < step := by positivity
  have hnstep : (n : ℚ) * step = 360 := by
    rw [hstepdef]; field_simp
  set y : ℚ := qmod360 (x - (270 - step / 2)) with hy
  have hy0 : 0 ≤ y := qmod360_nonneg _
  have hy1 : y < 360 := qmod360_lt _
  have hchar : ∀ j : ℕ, j < n → (sectorOwns n j x = true ↔
      ((j : ℚ) * step ≤ y ∧ y < ((j : ℚ) + 1) * step)) := by
    intro j hj
    exact sectorOwns_iff_interval n j x hn hj hx0 hx1
  have hfl0 : 0 ≤ ⌊y / step⌋ := by
    apply Int.floor_nonneg.mpr
    positivity
  refine ⟨⌊y / step⌋.toNat, ?_, ?_, ?_⟩
  · have : (⌊y / step⌋ : ℚ) ≤ y / step := Int.floor_le _
    have hlt : y / step < (n : ℚ) := by
      rw [div_lt_iff₀ hstep]
      linarith
    have : (⌊y / step⌋ : ℚ) < (n : ℚ) := lt_of_le_of_lt this hlt
    have hzlt : ⌊y / step⌋ < (n : ℤ) := by exact_mod_cast this
    omega
  · rw [hchar _ (by
      have : (⌊y / step⌋ : ℚ) ≤ y / step := Int.floor_le _
      have hlt : y / step < (n : ℚ) := by
        rw [div_lt_iff₀ hstep]; linarith
      have : (⌊y / step⌋ : ℚ) < (n : ℚ) := lt_of_le_of_lt this hlt
      have hzlt : ⌊y / step⌋ < (n : ℤ) := by exact_mod_cast this
      omega)]
    have hcast : ((⌊y / step⌋.toNat : ℕ) : ℚ) = ((⌊y / step⌋ : ℤ) : ℚ) := by
      exact_mod_cast congrArg (fun z : ℤ => (z : ℚ)) (Int.toNat_of_nonneg hfl0)
    rw [hcast]
    constructor
    · rw [← le_div_iff₀ hstep]
      exact Int.floor_le _
    · rw [← div_lt_iff₀ hstep]
      exact Int.lt_floor_add_one _
  · intro j hj hjown
    rw [hchar _ hj] at hjown
    obtain ⟨hj1, hj2⟩ := hjown
    have hfloor : ⌊y / step⌋ = (j : ℤ) := by
      apply Int.floor_eq_iff.mpr
      constructor
      · push_cast
        rw [le_div_iff₀ hstep]
        linarith
      · push_cast
        rw [div_lt_iff₀ hstep]
        linarith
    omega

theorem calculate_angles_length (labels : List String) :
    (calculate_angles labels).length = labels.length := by
  unfold calculate_angles
  split
  · simp [*]
  · simp

theorem calculate_angles_get (labels : List String) (j : Fin labels.length) :
    (calculate_angles labels).get
        (j.cast (calculate_angles_length labels).symm) =
      (labels.get j, qmod360 (270 + ((j : ℕ) : ℚ) *
        (360 / (labels.length : ℚ)))) := by
  have hne : labels ≠ [] := by
    intro h
    subst h
    exact absurd j.isLt (by simp)
  simp only [calculate_angles, if_neg hne, List.get_eq_getElem]
  simp [List.getElem_map, List.getElem_enum]

/-- C1: for every non-empty ordered list of labels, composing
`calculate_angles` (360/n degrees per label from 270, mod 360) with
`get_sector_from_angle` yields exactly one owning label for every angle in
`[0, 360)`: the angle lies in exactly one label's half-open wrapped band,
and the lookup returns precisely that label — no gaps, no double
ownership. -/
theorem radial_c1 (labels : List String) (hne : labels ≠ [])
    (_hnd : labels.Nodup) (x : ℚ) (hx0 : 0 ≤ x) (hx1 : x < 360) :
    ∃ i : Fin labels.length,
      sectorOwns labels.length (i : ℕ) x = true ∧
      (∀ j : Fin labels.length,
        sectorOwns labels.length (j : ℕ) x = true → j = i) ∧
      get_sector_from_angle (calculate_angles labels) x =
        some (labels.get i) := by
  have hn : 0 < labels.length := List.length_pos.mpr hne
  obtain ⟨i, hi, hown, huniq⟩ :=
    sectorOwns_existsUnique labels.length x hn hx0 hx1
  refine ⟨⟨i, hi⟩, hown, ?_, ?_⟩
  · intro j hj
    exact Fin.ext (huniq (j : ℕ) j.isLt hj)
  · have hLne : calculate_angles labels ≠ [] := by
      intro h
      have := calculate_angles_length labels
      rw [h] at this
      simp at this
      omega
    simp only [get_sector_from_angle, if_neg hLne]
    have hlen := calculate_angles_length labels
    have hfind := find?_eq_get_of_first (calculate_angles labels)
      (fun p => bandContains
        (qmod360 (p.2 - 360 / ((calculate_angles labels).length : ℚ) / 2))
        (qmod360 (p.2 + 360 / ((calculate_angles labels).length : ℚ) / 2)) x)
      ((⟨i, hi⟩ : Fin labels.length).cast
        (calculate_angles_length labels).symm)
      ?_ ?_
    · rw [hfind]
      rw [calculate_angles_get labels ⟨i, hi⟩]
      simp
    · rw [calculate_angles_get labels ⟨i, hi⟩]
      simp only [hlen]
      exact hown
    · intro j hj
      have hj2 : (j : ℕ) < i := by simpa using hj
      have hjlt : (j : ℕ) < labels.length := by omega
      have hj' : ((⟨(j : ℕ), hjlt⟩ : Fin labels.length).cast
          (calculate_angles_length labels).symm) = j := by
        apply Fin.ext
        simp
      rw [← hj', calculate_angles_get labels ⟨(j : ℕ), hjlt⟩]
      simp only [hlen]
      have : sectorOwns labels.length (j : ℕ) x = false := by
        by_contra hc
        have : sectorOwns labels.length (j : ℕ) x = true := by
          revert hc
          cases sectorOwns labels.length (j : ℕ) x <;> simp
        have := huniq (j : ℕ) hjlt this
        omega
      exact this

/-- Witness for C1 at labels `["A", "B", "C"]` and angle `10`. -/
theorem radial_c1_witness :
    ∃ i : Fin (["A", "B", "C"] : List String).length,
      sectorOwns (["A", "B", "C"] : List String).length (i : ℕ) 10 = true ∧
      (∀ j : Fin (["A", "B", "C"] : List String).length,
        sectorOwns (["A", "B", "C"] : List String).length (j : ℕ) 10 =
          true → j = i) ∧
      get_sector_from_angle (calculate_angles ["A", "B", "C"]) 10 =
        some ((["A", "B", "C"] : List String).get i) :=
  radial_c1 ["A", "B", "C"] (by decide) (by decide) 10 (by norm_num)
    (by norm_num)


/-- C3 counterexample: one sector at label-angle 270 with the two children
`["first", "second"]`; the pointer at angle exactly 270 does NOT resolve to
the first child in insertion order. -/
theorem radial_c3_counterexample :
    get_outer_sector_from_angle (get_child_angles ["first", "second"] 1 270)
      1 270 ≠ some "first" := by
  norm_num +decide [get_outer_sector_from_angle, get_child_angles,
    bandContains, qmod360, List.find?, List.enum]

/-- C3 (amended): for a sector whose label angle is 270 and which has two
children, the child arcs are `[245, 270)` and `[270, 295)`
(`step = 25 * child_angle_multiplier = 25`, arc starting at
`270 - totalArc/2 = 245`), so a pointer at angle exactly 270 resolves
`outerActiveSector` to the SECOND child in insertion order: 270 is the
start edge of the second child's half-open band, and the first child's band
excludes its upper edge 270. -/
theorem radial_c3_amended (c1 c2 : String) (_h : c1 ≠ c2) :
    get_outer_sector_from_angle (get_child_angles [c1, c2] 1 270) 1 270 =
      some c2 := by
  have q245 : qmod360 245 = 245 :=
    qmod360_eq_of_bounds 245 (by norm_num) (by norm_num)
  have q270 : qmod360 270 = 270 :=
    qmod360_eq_of_bounds 270 (by norm_num) (by norm_num)
  have q295 : qmod360 295 = 295 :=
    qmod360_eq_of_bounds 295 (by norm_num) (by norm_num)
  have e1 : get_child_angles [c1, c2] 1 270 = [(c1, 245), (c2, 270)] := by
    simp only [get_child_angles, List.enum, List.enumFrom, List.map,
      List.length_cons, List.length_nil]
    norm_num
    refine ⟨?_, ?_⟩
    · rw [q245, q245]
    · rw [q245, show (245 + 25 : ℚ) = 270 from by norm_num, q270]
  rw [e1]
  have e2 : bandContains 245 (qmod360 (245 + 25)) 270 = false := by
    rw [show (245 + 25 : ℚ) = 270 from by norm_num, q270]
    unfold bandContains
    rw [if_pos (by norm_num : (245 : ℚ) < 270)]
    simp only [decide_eq_false_iff_not]
    intro hc
    exact absurd hc.2 (by norm_num)
  have e3 : bandContains 270 (qmod360 (270 + 25)) 270 = true := by
    rw [show (270 + 25 : ℚ) = 295 from by norm_num, q295]
    unfold bandContains
    rw [if_pos (by norm_num : (270 : ℚ) < 295)]
    simp only [decide_eq_true_eq]
    constructor <;> norm_num
  show Option.map Prod.fst
    (List.find? (fun p => bandContains p.2 (qmod360 (p.2 + 25 * 1)) 270)
      [(c1, 245), (c2, 270)]) = some c2
  rw [List.find?_cons_of_neg _ (by simp [e2]),
    List.find?_cons_of_pos _ (by simp [e3])]
  rfl

/-- Witness for the amended C3 at children `["A", "B"]`. -/
theorem radial_c3_amended_witness :
    get_outer_sector_from_angle (get_child_angles ["A", "B"] 1 270) 1 270 =
      some "B" :=
  radial_c3_amended "A" "B" (by decide)


/-! ## Interaction state machine: mouse-move handlers

`RadialMenuWidget.mouseMoveEvent` (editor preview) and
`RadialMenu.mouseMoveEvent` (popup).  Children dictionaries are modelled by
their ordered label lists (the move logic reads only keys and membership);
Python truthiness of `None`/`""`/`{}` is made explicit. -/

/-- Truthiness of an optional Python string (`None` and `""` are falsy). -/
def optStrTruthy (o : Option String) : Bool := !(o.getD "").isEmpty

/-- Truthiness of an optional Python dict of children (`None` and `{}` are
falsy), the dict given by its ordered key list. -/
def optListTruthy (o : Option (List String)) : Bool := !(o.getD []).isEmpty

/-- Geometry attributes read by the move handlers: `display_radius` (the
widget's scaled radius; plain `radius` in the popup), `inner_hole`/
`display_hole`, `ring_gap`, `outer_radius`, `outer_ring_width`, and
`child_angle_mult`. -/
structure Geom where
  radius : ℚ
  hole : ℚ
  ring_gap : ℚ
  outer_radius : ℚ
  outer_ring_width : ℚ
  child_angle_mult : ℚ
deriving DecidableEq, Repr

/-- `HYST = max(12, int(self.outer_ring_width * 0.6))` (the `int` cast is
floor for the nonnegative widths used by the menu). -/
def hystWidth (g : Geom) : ℚ := max 12 ((⌊g.outer_ring_width * (3 / 5)⌋ : ℤ) : ℚ)

/-- An `inner_section` entry as read by the move handlers: only the
presence and the ordered key list of its `children` dict matter. -/
structure ISec where
  children : Option (List String)
deriving DecidableEq, Repr

/-- Runtime hover/sticky state of the editor widget
(`RadialMenuWidget`). -/
structure WState where
  sticky_parent : Option String
  sticky_child : Option String
  active_sector : Option String
  outer_active_sector : Option String
  hovered_children : Option (List String)
  hovered_child_angles : List (String × ℚ)
  inner_sections : List (String × ISec)
  inner_angles : List (String × ℚ)
deriving DecidableEq, Repr

/-- `self.inner_sections.get(label, {}).get("children", {})` — the child
key list, defaulting to empty. -/
def childrenOf (secs : List (String × ISec)) (label : String) :
    List String :=
  match secs.lookup label with
  | some sec => sec.children.getD []
  | none => []

/-- `"children" in self.inner_sections.get(label, {})` together with the
lookup of the children dict itself: `some` iff the key is present. -/
def childrenKey (secs : List (String × ISec)) (o : Option String) :
    Option (List String) :=
  match o with
  | some a => if a.isEmpty then none else (secs.lookup a).bind ISec.children
  | none => none

/-- The widget method `get_child_angles` (full method: returns `{}` unless
both `active_sector` and `hovered_children` are truthy; the centre angle is
`self.inner_angles[self.active_sector]`, always present when this is
reached since the hovered labels come from `inner_sections`, whose key set
generates `inner_angles`). -/
def widget_child_angles (active_sector : Option String)
    (hovered_children : Option (List String))
    (inner_angles : List (String × ℚ)) (mult : ℚ) : List (String × ℚ) :=
  if !(optStrTruthy active_sector) || !(optListTruthy hovered_children)
  then []
  else
    get_child_angles (hovered_children.getD []) mult
      ((inner_angles.lookup (active_sector.getD "")).getD 0)

/-- The widget method `get_outer_sector_from_angle`: recomputes the child
angles from the current state and scans them. -/
def widget_outer_sector (active_sector : Option String)
    (hovered_children : Option (List String))
    (inner_angles : List (String × ℚ)) (mult angle : ℚ) : Option String :=
  get_outer_sector_from_angle
    (widget_child_angles active_sector hovered_children inner_angles mult)
    mult angle

/-- `RadialMenuWidget._clear_selection_state` (selection fields only). -/
def wClearSelection (st : WState) : WState :=
  { st with
    sticky_parent := none
    sticky_child := none
    active_sector := none
    outer_active_sector := none
    hovered_children := none
    hovered_child_angles := [] }

/-- `RadialMenuWidget.mouseMoveEvent`, as a pure transition on the state
given the pointer's `(angle, dist)` relative to the widget centre. -/
def wMouseMove (g : Geom) (st : WState) (angle dist : ℚ) : WState :=
  let inner_radius := g.radius
  let outer_inner_radius := g.radius + g.ring_gap
  let outer_outer_radius := g.outer_radius
  let ring_inner_with_hyst := max g.hole (outer_inner_radius - hystWidth g)
  let ring_outer_with_hyst := outer_outer_radius + hystWidth g
  let sector_at_angle := get_sector_from_angle st.inner_angles angle
  if optStrTruthy st.sticky_parent then
    -- sticky parent pinned: keep it active and show its children
    let ch := childrenOf st.inner_sections (st.sticky_parent.getD "")
    let st1 := { st with
      active_sector := st.sticky_parent
      hovered_children := some ch }
    let st2 := { st1 with
      hovered_child_angles :=
        if ch.isEmpty then []
        else widget_child_angles st1.active_sector st1.hovered_children
          st1.inner_angles g.child_angle_mult }
    if !ch.isEmpty then
      if outer_inner_radius ≤ dist ∧ dist ≤ outer_outer_radius then
        let o := widget_outer_sector st2.active_sector st2.hovered_children
          st2.inner_angles g.child_angle_mult angle
        { st2 with outer_active_sector := o }
      else
        let o :=
          match st.sticky_child with
          | some c => if c ∈ ch then some c else none
          | none => none
        { st2 with outer_active_sector := o }
    else
      { st2 with outer_active_sector := none }
  else if g.hole ≤ dist ∧ dist ≤ inner_radius then
    -- inside the inner-ring annulus
    let st1 := { st with
      active_sector := sector_at_angle
      outer_active_sector := none }
    match childrenKey st1.inner_sections st1.active_sector with
    | some ch =>
      let st2 := { st1 with hovered_children := some ch }
      let ca := widget_child_angles st2.active_sector st2.hovered_children
        st2.inner_angles g.child_angle_mult
      { st2 with hovered_child_angles := ca }
    | none =>
      { st1 with hovered_children := none, hovered_child_angles := [] }
  else if (ring_inner_with_hyst ≤ dist ∧ dist ≤ ring_outer_with_hyst) ∧
      optListTruthy st.hovered_children then
    -- in/near the outer ring (with hysteresis)
    let st1 :=
      if st.active_sector = none ∧ optStrTruthy sector_at_angle then
        { st with active_sector := sector_at_angle }
      else st
    if outer_inner_radius ≤ dist ∧ dist ≤ outer_outer_radius then
      let o := widget_outer_sector st1.active_sector st1.hovered_children
        st1.inner_angles g.child_angle_mult angle
      { st1 with outer_active_sector := o }
    else
      { st1 with outer_active_sector := none }
  else
    wClearSelection st

/-- Runtime hover state of the popup (`RadialMenu`). -/
structure PState where
  active_sector : Option String
  outer_active_sector : Option String
  hovered_children : Option (List String)
  hovered_child_angles : List (String × ℚ)
  parent_anchor : Option String
  inner_sections : List (String × ISec)
  inner_angles : List (String × ℚ)
deriving DecidableEq, Repr

/-- `RadialMenu.mouseMoveEvent`, as a pure transition on the popup state
given the pointer's `(angle, dist)` relative to the popup centre. -/
def pMouseMove (g : Geom) (st : PState) (angle dist : ℚ) : PState :=
  let inner_radius := g.radius
  let inner_hole := g.hole
  let outer_inner_radius := g.radius + g.ring_gap
  let outer_outer_radius := g.outer_radius
  let ring_inner_with_hyst := max inner_hole (outer_inner_radius - hystWidth g)
  let ring_outer_with_hyst := outer_outer_radius + hystWidth g
  let sector_at_angle := get_sector_from_angle st.inner_angles angle
  if dist < inner_hole then
    -- inside the hole: clear everything
    { st with
      active_sector := none
      outer_active_sector := none
      hovered_children := none
      hovered_child_angles := []
      parent_anchor := none }
  else if inner_hole ≤ dist ∧ dist ≤ inner_radius then
    -- inside the inner-ring annulus
    let st1 := { st with
      active_sector := sector_at_angle
      outer_active_sector := none }
    match childrenKey st1.inner_sections st1.active_sector with
    | some ch =>
      let st2 := { st1 with hovered_children := some ch }
      let ca := widget_child_angles st2.active_sector st2.hovered_children
        st2.inner_angles g.child_angle_mult
      { st2 with
        hovered_child_angles := ca
        parent_anchor := st2.active_sector }
    | none =>
      { st1 with
        hovered_children := none
        hovered_child_angles := []
        parent_anchor := none }
  else if (ring_inner_with_hyst ≤ dist ∧ dist ≤ ring_outer_with_hyst) ∧
      optListTruthy st.hovered_children ∧ optStrTruthy st.parent_anchor then
    -- in/near the outer ring (with hysteresis): parent stays anchored
    let st1 := { st with active_sector := st.parent_anchor }
    if outer_inner_radius ≤ dist ∧ dist ≤ outer_outer_radius then
      let o := widget_outer_sector st1.active_sector st1.hovered_children
        st1.inner_angles g.child_angle_mult angle
      { st1 with outer_active_sector := o }
    else
      -- buffer area: keep children visible but no specific child selected
      { st1 with outer_active_sector := none }
  else
    { st with
      active_sector := none
      outer_active_sector := none
      hovered_children := none
      hovered_child_angles := []
      parent_anchor := none }


/-- C2: whenever the pointer's radial distance lies inside the hysteresis
extension of the child ring (`max(12, outer_ring_width*0.6)` on both
sides) but outside the true child-ring band
`[radius + ring_gap, outer_radius]`, neither move handler resolves
`outer_active_sector` from the pointer angle: the editor widget's result
is the same for every angle (retention of the sticky child or `none`), and
the popup's result is `none`. -/
theorem radial_c2 (g : Geom) (wst : WState) (pst : PState) (a1 a2 d : ℚ)
    (hzone : max g.hole (g.radius + g.ring_gap - hystWidth g) ≤ d ∧
             d ≤ g.outer_radius + hystWidth g)
    (hnotband : ¬(g.radius + g.ring_gap ≤ d ∧ d ≤ g.outer_radius)) :
    (wMouseMove g wst a1 d).outer_active_sector =
      (wMouseMove g wst a2 d).outer_active_sector ∧
    (pMouseMove g pst a1 d).outer_active_sector = none := by
  obtain ⟨hz1, hz2⟩ := hzone
  constructor
  · unfold wMouseMove
    by_cases hs : optStrTruthy wst.sticky_parent
    · simp only [hs, if_true]
      by_cases hch : (childrenOf wst.inner_sections
          (wst.sticky_parent.getD "")).isEmpty
      · simp [hch]
      · simp only [hch, Bool.not_false, if_true, Bool.not_eq_true']
        rw [if_neg hnotband, if_neg hnotband]
    · simp only [hs, Bool.false_eq_true, if_false]
      by_cases hinner : g.hole ≤ d ∧ d ≤ g.radius
      · simp only [hinner, if_true]
        cases childrenKey wst.inner_sections
            (get_sector_from_angle wst.inner_angles a1) <;>
          cases childrenKey wst.inner_sections
            (get_sector_from_angle wst.inner_angles a2) <;> simp
      · simp only [hinner, if_false]
        by_cases hh : (max g.hole (g.radius + g.ring_gap - hystWidth g) ≤ d ∧
            d ≤ g.outer_radius + hystWidth g) ∧
            optListTruthy wst.hovered_children
        · rw [if_pos hh, if_pos hh, if_neg hnotband, if_neg hnotband]
        · rw [if_neg hh, if_neg hh]
  · unfold pMouseMove
    have hole_le : g.hole ≤ d := le_trans (le_max_left _ _) hz1
    rw [if_neg (not_lt.mpr hole_le)]
    by_cases hinner : g.hole ≤ d ∧ d ≤ g.radius
    · simp only [hinner, if_true]
      cases childrenKey pst.inner_sections
          (get_sector_from_angle pst.inner_angles a1) <;> simp
    · simp only [hinner, if_false]
      by_cases hh : (max g.hole (g.radius + g.ring_gap - hystWidth g) ≤ d ∧
          d ≤ g.outer_radius + hystWidth g) ∧
          optListTruthy pst.hovered_children ∧ optStrTruthy pst.parent_anchor
      · rw [if_pos hh, if_neg hnotband]
      · rw [if_neg hh]

/-- Concrete geometry for the C2 witness: default menu sizes
(`radius 150, ring_gap 5, outer_ring_width 25, hole 52`), so
`HYST = max(12, 15) = 15` and the hysteresis-only zone includes
`dist = 185 ∈ (180, 195]`. -/
def c2Geom : Geom :=
  { radius := 150, hole := 52, ring_gap := 5, outer_radius := 180,
    outer_ring_width := 25, child_angle_mult := 1 }

/-- Concrete widget state for the C2 witness: sector `"S"` sticky-locked
with children shown. -/
def c2WState : WState :=
  { sticky_parent := some "S", sticky_child := some "c1",
    active_sector := some "S", outer_active_sector := some "c1",
    hovered_children := some ["c1", "c2"],
    hovered_child_angles := [("c1", 245), ("c2", 270)],
    inner_sections := [("S", ⟨some ["c1", "c2"]⟩)],
    inner_angles := [("S", 270)] }

/-- Concrete popup state for the C2 witness: hovering sector `"S"` with its
children shown and anchored. -/
def c2PState : PState :=
  { active_sector := some "S", outer_active_sector := some "c1",
    hovered_children := some ["c1", "c2"],
    hovered_child_angles := [("c1", 245), ("c2", 270)],
    parent_anchor := some "S",
    inner_sections := [("S", ⟨some ["c1", "c2"]⟩)],
    inner_angles := [("S", 270)] }

/-- Witness for C2 at distance 185 (inside the hysteresis extension,
outside the true band) and two far-apart angles. -/
theorem radial_c2_witness :
    (wMouseMove c2Geom c2WState 10 185).outer_active_sector =
      (wMouseMove c2Geom c2WState 250 185).outer_active_sector ∧
    (pMouseMove c2Geom c2PState 10 185).outer_active_sector = none :=
  radial_c2 c2Geom c2WState c2PState 10 250 185
    (by constructor <;> norm_num [c2Geom, hystWidth])
    (by norm_num [c2Geom])


/-! ## Preset store (`_load_data`, `_save_data`, `set_active_preset`,
`create_preset`, `delete_preset`)

The persisted JSON document is modelled structurally: optional keys become
`Option` fields, `OrderedDict`s become association lists.  `_save_data` is
whole-document overwrite, so each operation is modelled as a function from
the persisted document to `Option (result × persisted-after)`; `none`
models an uncaught Python exception (`next(iter(...))` raising
`StopIteration` on an empty presets map), in which case nothing was
written.  `_load_data` returns `(in-memory doc, persisted-after, wrote)` —
the in-memory and persisted documents can differ when set-defaulting
mutates memory without triggering a write-back. -/

/-- A primitive JSON value (string or number), used for colour entries and
per-preset size entries, whose contents the store copies opaquely. -/
inductive Prim where
  | str (s : String)
  | num (q : ℚ)
deriving DecidableEq, Repr

/-- A child entry of a sector (`children` never nest further). -/
structure ChildNode where
  description : Option String := none
  command : Option String := none
  on_release : Option String := none
  on_double : Option String := none
deriving DecidableEq, Repr

/-- A primary sector of `inner_section`. -/
structure SectionNode where
  description : Option String := none
  command : Option String := none
  on_release : Option String := none
  on_double : Option String := none
  children : Option (List (String × ChildNode)) := none
deriving DecidableEq, Repr

/-- One preset of the `presets` map. -/
structure Preset where
  active : Option Bool := none
  colour : Option (List (String × Prim)) := none
  inner_section : Option (List (String × SectionNode)) := none
  size : Option (List (String × Prim)) := none
deriving DecidableEq, Repr

/-- The `ui.size` block. -/
structure SizeCfg where
  radius : Option ℚ := none
  ring_gap : Option ℚ := none
  outer_ring_width : Option ℚ := none
  child_angle_multiplier : Option ℚ := none
  inner_hole_radius : Option ℚ := none
  text_scale : Option ℚ := none
deriving DecidableEq, Repr

/-- The `ui` block. -/
structure UICfg where
  size : Option SizeCfg := none
  smart_mode : Option String := none
deriving DecidableEq, Repr

/-- The persisted `radialMenu_info.json` document.  `inner_section` at top
level only occurs in the legacy (pre-presets) schema. -/
structure Doc where
  active_preset : Option String := none
  presets : Option (List (String × Preset)) := none
  ui : Option UICfg := none
  inner_section : Option (List (String × SectionNode)) := none
deriving DecidableEq, Repr

/-- `_default_colour_from_data`: the hardcoded fallback colour block. -/
def default_colour : List (String × Prim) :=
  [("inner_colour", .str "#454545"),
   ("innerHighlight_colour", .str "#282828"),
   ("innerLine_colour", .str "#1E1E1E"),
   ("child_colour", .str "#5285a6"),
   ("childLine_colour", .str "#1E1E1E"),
   ("child_text_color", .str "#FFFFFF"),
   ("child_textOutline_color", .str "#000000"),
   ("child_outline_thickness", .num 1)]

/-- Ordered key list of the presets map (empty when the key is absent). -/
def docKeys (d : Doc) : List String := (d.presets.getD []).map Prod.fst

/-- Legacy migration step of `_load_data`: if `"presets"` is absent, the
document is replaced by a fresh two-key document wrapping the legacy
top-level `inner_section` into a `Default` preset, and saved. -/
def migrate (d : Doc) : Doc × Bool :=
  match d.presets with
  | none =>
    ({ active_preset := some "Default",
       presets := some [("Default",
         { inner_section := some (d.inner_section.getD []) })],
       ui := none, inner_section := none }, true)
  | some _ => (d, false)

/-- Active-preset validity repair step of `_load_data`: if `active_preset`
is absent or names no preset, it is set to the first preset key and the
document is saved; `next(iter(...))` raises (`none`) when the presets map
is empty. -/
def repairActive (d : Doc) : Option (Doc × Bool) :=
  let ps := d.presets.getD []
  let invalid :=
    match d.active_preset with
    | none => true
    | some a => !(decide (a ∈ ps.map Prod.fst))
  if invalid then
    match ps.head? with
    | none => none
    | some kv => some ({ d with active_preset := some kv.1 }, true)
  else some (d, false)

/-- `ui`/`ui.size` set-defaulting step of `_load_data` (mutates the
in-memory document only; never triggers a write-back by itself).
`inner_hole_radius` defaults to `max(0, int(size.get("radius", 150) *
0.35))`, evaluated after the `radius` default has been applied. -/
def applyUiDefaults (d : Doc) : Doc :=
  let ui := d.ui.getD {}
  let size := ui.size.getD {}
  let radius' := size.radius.getD 150
  let size' : SizeCfg :=
    { radius := some radius'
      ring_gap := some (size.ring_gap.getD 5)
      outer_ring_width := some (size.outer_ring_width.getD 25)
      child_angle_multiplier := some (size.child_angle_multiplier.getD 1)
      inner_hole_radius := some (size.inner_hole_radius.getD
        ((max 0 ⌊radius' * (7 / 20)⌋ : ℤ) : ℚ))
      text_scale := some (size.text_scale.getD 1) }
  { d with ui := some { ui with size := some size' } }

/-- Per-preset backfill applied by `_load_data`'s colour loop: a missing
`colour` block becomes the default colour block, and a missing
`inner_section` becomes the empty map. -/
def normPreset (p : Preset) : Preset :=
  { p with
    colour := some (p.colour.getD default_colour)
    inner_section := some (p.inner_section.getD []) }

/-- Colour-backfill step of `_load_data`: `changed` (and hence the final
write-back) is set only by a missing `colour` block, not by a missing
`inner_section`. -/
def backfillColours (d : Doc) : Doc × Bool :=
  let ps := d.presets.getD []
  let changed := ps.any fun kv => kv.2.colour.isNone
  ({ d with presets := some (ps.map fun kv => (kv.1, normPreset kv.2)) },
   changed)

/-- `_load_data`: returns `(in-memory document, persisted document after
the call, whether any `_save_data` happened)`, or `none` when the empty
presets map makes `next(iter(...))` raise. -/
def load_data (d : Doc) : Option (Doc × Doc × Bool) :=
  let m1 := migrate d
  let per1 := if m1.2 then m1.1 else d
  match repairActive m1.1 with
  | none => none
  | some (d2, w2) =>
    let per2 := if w2 then d2 else per1
    let d3 := applyUiDefaults d2
    let b := backfillColours d3
    let per3 := if b.2 then b.1 else per2
    some (b.1, per3, m1.2 || w2 || b.2)

/-- `set_active_preset`: accepts only names present in the loaded presets
map; on success commits the new `active_preset` by a full save. -/
def set_active_preset (name : String) (d : Doc) : Option (Bool × Doc) :=
  (load_data d).map fun r =>
    let mem := r.1
    let per := r.2.1
    if name ∈ docKeys mem then
      (true, { mem with active_preset := some name })
    else
      (false, per)

/-- `delete_preset`: refuses `"Default"` and unknown names (no save on
those paths beyond `_load_data`'s own write-backs); otherwise removes the
entry, reassigns `active_preset` to `"Default"` if present else to the
first remaining key (or `""` when none remain), and saves. -/
def delete_preset (name : String) (d : Doc) : Option (Bool × Doc) :=
  (load_data d).map fun r =>
    let mem := r.1
    let per := r.2.1
    if name = "Default" then (false, per)
    else if name ∉ docKeys mem then (false, per)
    else
      let ps' := (mem.presets.getD []).filter fun kv => kv.1 ≠ name
      let mem2 := { mem with presets := some ps' }
      let fallback :=
        if "Default" ∈ ps'.map Prod.fst then "Default"
        else ((ps'.head?.map Prod.fst).getD "")
      let mem3 :=
        if mem2.active_preset = some name then
          { mem2 with active_preset := some fallback }
        else mem2
      (true, mem3)

/-- The clone branch of `create_preset`: copies the top-level
`inner_section`/`colour`/`size` dict entries from the source (a shallow
`OrderedDict(val)` copy, which under the value semantics of a
load/save round-trip is content equality), then set-defaults
`inner_section`/`colour` and takes `bool(src.get("active", True))`. -/
def clonePayload (src : Preset) : Preset :=
  { inner_section := some (src.inner_section.getD [])
    colour := some (src.colour.getD default_colour)
    size := src.size
    active := some (src.active.getD true) }

/-- The fresh-preset branch of `create_preset`: a single starter sector. -/
def freshPayload : Preset :=
  { active := some true
    colour := some default_colour
    inner_section := some [("New Section",
      { description := some "New Section"
        command := some ""
        children := some [] })] }

/-- `create_preset`: fails on an existing name; clones from a truthy,
existing `clone_from` or seeds a starter sector; inserts the new preset at
the end of the map and saves. -/
def create_preset (name : String) (clone_from : Option String) (d : Doc) :
    Option (Bool × Doc) :=
  (load_data d).map fun r =>
    let mem := r.1
    let per := r.2.1
    if name ∈ docKeys mem then (false, per)
    else
      let payload :=
        if optStrTruthy clone_from ∧ (clone_from.getD "") ∈ docKeys mem then
          match (mem.presets.getD []).lookup (clone_from.getD "") with
          | some src => clonePayload src
          | none => freshPayload
        else freshPayload
      (true,
       { mem with presets := some ((mem.presets.getD []) ++
           [(name, payload)]) })

/-- The C5 invariant: `active_preset` names an existing entry of the
presets map. -/
def activeValid (d : Doc) : Bool :=
  match d.presets, d.active_preset with
  | some ps, some a => decide (a ∈ ps.map Prod.fst)
  | _, _ => false

/-- `ui.size` is present with all six keys. -/
def uiComplete (d : Doc) : Bool :=
  match d.ui with
  | some u =>
    match u.size with
    | some s =>
      s.radius.isSome && s.ring_gap.isSome && s.outer_ring_width.isSome &&
        s.child_angle_multiplier.isSome && s.inner_hole_radius.isSome &&
        s.text_scale.isSome
    | none => false
  | none => false

/-- Every preset carries a `colour` block and an `inner_section` map. -/
def presetsComplete (d : Doc) : Bool :=
  (d.presets.getD []).all fun kv =>
    kv.2.colour.isSome && kv.2.inner_section.isSome

/-- A document already in the current schema: `presets` present, valid
`active_preset`, complete `ui.size`, and a colour block and inner section
in every preset — the hypotheses of the spec's round-trip property. -/
def normalizedDoc (d : Doc) : Bool :=
  d.presets.isSome && activeValid d && uiComplete d && presetsComplete d

end RadialMenu
